import Mathlib

/-
Verification of the Black-Scholes pricing module (src/Black_Scholes.py).

The module has three operations:
  blackscholes        - closed-form European option price,
  blackscholes_greek  - analytic delta, gamma, vega (plus d1, d2),
  finite_diff_greeks  - central finite-difference estimates built on blackscholes.

We embed the module shallowly over the reals: Python floats become real
numbers, scipy.stats.norm.cdf / norm.pdf become the mathematical standard
normal CDF and PDF, and a raised ValueError (or a returned ValueError object,
as in blackscholes_greek) becomes the error branch of an Except value.
-/

open MeasureTheory Set

namespace BlackScholes

/-- Standard normal probability density, the embedding of scipy st.norm.pdf
with loc 0 and scale 1. -/
noncomputable def norm_pdf (x : ℝ) : ℝ :=
  Real.exp (-(x ^ 2) / 2) / Real.sqrt (2 * Real.pi)

/-- Standard normal cumulative distribution function, the embedding of scipy
st.norm.cdf with loc 0 and scale 1, written as one half plus the integral of
the density from zero. -/
noncomputable def norm_cdf (x : ℝ) : ℝ :=
  1 / 2 + ∫ t in (0:ℝ)..x, norm_pdf t

theorem norm_pdf_pos (x : ℝ) : 0 < norm_pdf x := by
  unfold norm_pdf
  have h2 : (0:ℝ) < Real.sqrt (2 * Real.pi) :=
    Real.sqrt_pos.mpr (by positivity)
  positivity

theorem norm_pdf_even (x : ℝ) : norm_pdf (-x) = norm_pdf x := by
  unfold norm_pdf
  rw [neg_sq]

theorem continuous_norm_pdf : Continuous norm_pdf := by
  unfold norm_pdf
  fun_prop

theorem norm_pdf_eq_gauss :
    norm_pdf = fun x => Real.exp (-(2⁻¹:ℝ) * x ^ 2) / Real.sqrt (2 * Real.pi) := by
  funext x
  unfold norm_pdf
  congr 1
  ring

theorem integrable_norm_pdf : Integrable norm_pdf := by
  rw [norm_pdf_eq_gauss]
  exact (integrable_exp_neg_mul_sq (by norm_num)).div_const _

theorem integral_norm_pdf_Ioi : ∫ x in Ioi (0:ℝ), norm_pdf x = 1 / 2 := by
  rw [norm_pdf_eq_gauss]
  rw [MeasureTheory.integral_div, integral_gaussian_Ioi]
  have hπ : (Real.pi / 2⁻¹ : ℝ) = 2 * Real.pi := by ring
  rw [hπ]
  have h2 : (0:ℝ) < Real.sqrt (2 * Real.pi) :=
    Real.sqrt_pos.mpr (by positivity)
  field_simp
  ring

theorem integral_norm_pdf_Iic : ∫ x in Iic (0:ℝ), norm_pdf x = 1 / 2 := by
  have h := integral_comp_neg_Ioi (0:ℝ) norm_pdf
  simp only [norm_pdf_even, neg_zero] at h
  rw [← h, integral_norm_pdf_Ioi]

theorem interval_integral_norm_pdf_symm (x : ℝ) :
    (∫ t in (0:ℝ)..(-x), norm_pdf t) = -∫ t in (0:ℝ)..x, norm_pdf t := by
  have h := intervalIntegral.integral_comp_neg (a := (0:ℝ)) (b := x) (f := norm_pdf)
  simp only [norm_pdf_even, neg_zero] at h
  rw [h, intervalIntegral.integral_symm]

theorem norm_cdf_neg (x : ℝ) : norm_cdf (-x) = 1 - norm_cdf x := by
  unfold norm_cdf
  rw [interval_integral_norm_pdf_symm]
  ring

theorem norm_cdf_nonneg (x : ℝ) : 0 ≤ norm_cdf x := by
  unfold norm_cdf
  rcases le_or_lt 0 x with hx | hx
  · have h : 0 ≤ ∫ t in (0:ℝ)..x, norm_pdf t :=
      intervalIntegral.integral_nonneg hx (fun u _ => (norm_pdf_pos u).le)
    linarith
  · have hI : (∫ t in (0:ℝ)..x, norm_pdf t) = -∫ t in Ioc x 0, norm_pdf t := by
      rw [intervalIntegral.integral_symm, intervalIntegral.integral_of_le hx.le]
    have hmono : (∫ t in Ioc x (0:ℝ), norm_pdf t) ≤ ∫ t in Iic (0:ℝ), norm_pdf t := by
      refine setIntegral_mono_set integrable_norm_pdf.integrableOn ?_ ?_
      · exact Filter.Eventually.of_forall (fun u => (norm_pdf_pos u).le)
      · exact HasSubset.Subset.eventuallyLE Ioc_subset_Iic_self
    rw [integral_norm_pdf_Iic] at hmono
    rw [hI]
    linarith

theorem norm_cdf_le_one (x : ℝ) : norm_cdf x ≤ 1 := by
  have h := norm_cdf_nonneg (-x)
  rw [norm_cdf_neg] at h
  linarith

theorem norm_cdf_hasDerivAt (x : ℝ) : HasDerivAt norm_cdf (norm_pdf x) x := by
  have h : HasDerivAt (fun u => ∫ t in (0:ℝ)..u, norm_pdf t) (norm_pdf x) x :=
    intervalIntegral.integral_hasDerivAt_right
      integrable_norm_pdf.intervalIntegrable
      continuous_norm_pdf.stronglyMeasurable.stronglyMeasurableAtFilter
      continuous_norm_pdf.continuousAt
  have h2 := h.const_add (1 / 2 : ℝ)
  exact h2

/-! ## Embedding of src/Black_Scholes.py -/

/-- Embedding of the Python str.strip method: drop whitespace from both ends.
(ASCII whitespace; the repository only ever passes ASCII kind strings.) -/
def pyStrip (s : String) : String :=
  ⟨((s.data.dropWhile Char.isWhitespace).reverse.dropWhile Char.isWhitespace).reverse⟩

/-- Embedding of the Python str.lower method, lowercasing each character.
(ASCII lowercasing; the repository only ever passes ASCII kind strings.) -/
def pyLower (s : String) : String :=
  ⟨s.data.map Char.toLower⟩

/-- The intermediate variable d_1 computed by blackscholes and, with the same
expression, by blackscholes_greek. -/
noncomputable def d_1 (S K T r sigma : ℝ) : ℝ :=
  (Real.log (S / K) + (r + 0.5 * sigma ^ 2) * T) / (sigma * Real.sqrt T)

/-- The intermediate variable d_2 = d_1 - sigma * sqrt T. -/
noncomputable def d_2 (S K T r sigma : ℝ) : ℝ :=
  d_1 S K T r sigma - sigma * Real.sqrt T

/-- The call branch expression of blackscholes:
S * cdf(d_1) - K * exp(-r*T) * cdf(d_2). -/
noncomputable def callPrice (S K T r sigma : ℝ) : ℝ :=
  S * norm_cdf (d_1 S K T r sigma)
    - K * Real.exp (-r * T) * norm_cdf (d_2 S K T r sigma)

/-- The put branch expression of blackscholes:
K * exp(-r*T) * cdf(-d_2) - S * cdf(-d_1). -/
noncomputable def putPrice (S K T r sigma : ℝ) : ℝ :=
  K * Real.exp (-r * T) * norm_cdf (-(d_2 S K T r sigma))
    - S * norm_cdf (-(d_1 S K T r sigma))

/-- Embedding of blackscholes from src/Black_Scholes.py. A raised ValueError
becomes the error branch. Note the guard tests the conjunction T ≤ 0 AND
sigma ≤ 0, exactly as the Python source does, and that the kind string is
compared verbatim, with no strip or lower normalization. -/
noncomputable def blackscholes (S K T r sigma : ℝ) (option_type : String) :
    Except String ℝ :=
  if T ≤ 0 ∧ sigma ≤ 0 then
    Except.error "Time to maturity and volatility must be positive."
  else if option_type = "call" then
    Except.ok (callPrice S K T r sigma)
  else if option_type = "put" then
    Except.ok (putPrice S K T r sigma)
  else
    Except.error "Invalid option type. Must be call or put."

/-- The dictionary returned by blackscholes_greek. -/
structure GreeksResult where
  delta : ℝ
  gamma : ℝ
  vega : ℝ
  d1 : ℝ
  d2 : ℝ

/-- Embedding of blackscholes_greek from src/Black_Scholes.py. The Python
function returns (rather than raises) a ValueError object on bad input; both
map to the error branch here. It normalizes the kind with strip and lower
before matching, and recomputes d_1 and d_2 with the same expressions the
pricing function uses. -/
noncomputable def blackscholes_greek (S K T r sigma : ℝ) (option_type : String) :
    Except String GreeksResult :=
  if T ≤ 0 ∨ sigma ≤ 0 then
    Except.error "Time to Maturity and Volatility must be positive."
  else if pyLower (pyStrip option_type) = "call" then
    Except.ok
      { delta := norm_cdf (d_1 S K T r sigma)
        gamma := norm_pdf (d_1 S K T r sigma) / (S * sigma * Real.sqrt T)
        vega := S * norm_pdf (d_1 S K T r sigma) * Real.sqrt T
        d1 := d_1 S K T r sigma
        d2 := d_2 S K T r sigma }
  else if pyLower (pyStrip option_type) = "put" then
    Except.ok
      { delta := norm_cdf (d_1 S K T r sigma) - 1
        gamma := norm_pdf (d_1 S K T r sigma) / (S * sigma * Real.sqrt T)
        vega := S * norm_pdf (d_1 S K T r sigma) * Real.sqrt T
        d1 := d_1 S K T r sigma
        d2 := d_2 S K T r sigma }
  else
    Except.error "Option type must be call or put."

/-- The dictionary returned by finite_diff_greeks. -/
structure NumGreeksResult where
  delta : ℝ
  gamma : ℝ
  vega : ℝ

/-- Embedding of finite_diff_greeks from src/Black_Scholes.py: central
finite differences built exclusively on calls to blackscholes, with a
relative spot bump eps_S (default 1e-4) and an absolute volatility bump
eps_sigma (default 1e-4). Exceptions propagating from blackscholes become
the error branch via the Except monad. -/
noncomputable def finite_diff_greeks (S K T r sigma : ℝ) (option_type : String)
    (eps_S : ℝ := 1e-4) (eps_sigma : ℝ := 1e-4) :
    Except String NumGreeksResult := do
  let V_up ← blackscholes (S + S * eps_S) K T r sigma (pyLower (pyStrip option_type))
  let V_down ← blackscholes (S - S * eps_S) K T r sigma (pyLower (pyStrip option_type))
  let V_0 ← blackscholes S K T r sigma (pyLower (pyStrip option_type))
  let Vol_up ← blackscholes S K T r (sigma + eps_sigma) (pyLower (pyStrip option_type))
  let Vol_down ← blackscholes S K T r (sigma - eps_sigma) (pyLower (pyStrip option_type))
  return { delta := (V_up - V_down) / (2 * (S * eps_S)),
           gamma := (V_up - 2 * V_0 + V_down) / (S * eps_S) ^ 2,
           vega := (Vol_up - Vol_down) / (2 * eps_sigma) }

/-! ## Evaluation lemmas -/

theorem blackscholes_call_eval (S K T r sigma : ℝ) (hg : ¬(T ≤ 0 ∧ sigma ≤ 0)) :
    blackscholes S K T r sigma "call" = Except.ok (callPrice S K T r sigma) := by
  simp only [blackscholes]
  rw [if_neg hg]
  simp

theorem blackscholes_put_eval (S K T r sigma : ℝ) (hg : ¬(T ≤ 0 ∧ sigma ≤ 0)) :
    blackscholes S K T r sigma "put" = Except.ok (putPrice S K T r sigma) := by
  simp only [blackscholes]
  rw [if_neg hg]
  simp

theorem blackscholes_greek_eval_call (S K T r sigma : ℝ) (option_type : String)
    (hT : 0 < T) (hs : 0 < sigma) (hk : pyLower (pyStrip option_type) = "call") :
    blackscholes_greek S K T r sigma option_type
      = Except.ok
          { delta := norm_cdf (d_1 S K T r sigma)
            gamma := norm_pdf (d_1 S K T r sigma) / (S * sigma * Real.sqrt T)
            vega := S * norm_pdf (d_1 S K T r sigma) * Real.sqrt T
            d1 := d_1 S K T r sigma
            d2 := d_2 S K T r sigma } := by
  simp only [blackscholes_greek]
  rw [if_neg (by push_neg; exact ⟨hT, hs⟩), hk]
  simp

theorem blackscholes_greek_eval_put (S K T r sigma : ℝ) (option_type : String)
    (hT : 0 < T) (hs : 0 < sigma) (hk : pyLower (pyStrip option_type) = "put") :
    blackscholes_greek S K T r sigma option_type
      = Except.ok
          { delta := norm_cdf (d_1 S K T r sigma) - 1
            gamma := norm_pdf (d_1 S K T r sigma) / (S * sigma * Real.sqrt T)
            vega := S * norm_pdf (d_1 S K T r sigma) * Real.sqrt T
            d1 := d_1 S K T r sigma
            d2 := d_2 S K T r sigma } := by
  simp only [blackscholes_greek]
  rw [if_neg (by push_neg; exact ⟨hT, hs⟩), hk]
  simp

/-! ## Mathematical facts about d_1, d_2 and the price formulas -/

theorem sigma_sqrtT_pos {T sigma : ℝ} (hT : 0 < T) (hs : 0 < sigma) :
    0 < sigma * Real.sqrt T :=
  mul_pos hs (Real.sqrt_pos.mpr hT)

theorem d_1_mul {T sigma : ℝ} (S K r : ℝ) (hT : 0 < T) (hs : 0 < sigma) :
    d_1 S K T r sigma * (sigma * Real.sqrt T)
      = Real.log (S / K) + (r + 0.5 * sigma ^ 2) * T :=
  div_mul_cancel₀ _ (sigma_sqrtT_pos hT hs).ne'

theorem d_sq_diff {S K T sigma : ℝ} (r : ℝ) (hS : 0 < S) (hK : 0 < K)
    (hT : 0 < T) (hs : 0 < sigma) :
    d_1 S K T r sigma ^ 2 - d_2 S K T r sigma ^ 2
      = 2 * (Real.log S - Real.log K + r * T) := by
  have hb2 : (sigma * Real.sqrt T) ^ 2 = sigma ^ 2 * T := by
    rw [mul_pow, Real.sq_sqrt hT.le]
  have hm := d_1_mul S K r hT hs
  have hlog : Real.log (S / K) = Real.log S - Real.log K :=
    Real.log_div hS.ne' hK.ne'
  have key : d_1 S K T r sigma ^ 2 - d_2 S K T r sigma ^ 2
      = 2 * (d_1 S K T r sigma * (sigma * Real.sqrt T)) - (sigma * Real.sqrt T) ^ 2 := by
    unfold d_2
    ring
  rw [key, hm, hb2, hlog]
  ring

theorem pdf_cancel {S K T sigma : ℝ} (r : ℝ) (hS : 0 < S) (hK : 0 < K)
    (hT : 0 < T) (hs : 0 < sigma) :
    S * norm_pdf (d_1 S K T r sigma)
      = K * Real.exp (-r * T) * norm_pdf (d_2 S K T r sigma) := by
  have hd := d_sq_diff r hS hK hT hs
  set a := d_1 S K T r sigma with ha
  set b := d_2 S K T r sigma with hb
  have h1 : S * Real.exp (-(a ^ 2) / 2)
      = K * Real.exp (-r * T) * Real.exp (-(b ^ 2) / 2) := by
    rw [← Real.exp_log hS, ← Real.exp_log hK, ← Real.exp_add, ← Real.exp_add,
      ← Real.exp_add]
    congr 1
    linarith
  unfold norm_pdf
  rw [← mul_div_assoc, ← mul_div_assoc, h1]

theorem d_1_hasDerivAt (K T r sigma : ℝ) {S : ℝ} (hS : 0 < S) (hK : 0 < K)
    (hT : 0 < T) (hs : 0 < sigma) :
    HasDerivAt (fun s => d_1 s K T r sigma)
      (1 / (S * (sigma * Real.sqrt T))) S := by
  have hlin : HasDerivAt (fun s : ℝ => s / K) (1 / K) S := by
    simpa using (hasDerivAt_id S).div_const K
  have hlog : HasDerivAt (fun s : ℝ => Real.log (s / K)) (1 / S) S := by
    have h := (Real.hasDerivAt_log (div_pos hS hK).ne').comp S hlin
    convert h using 1
    field_simp
  have h2 := (hlog.add_const ((r + 0.5 * sigma ^ 2) * T)).div_const (sigma * Real.sqrt T)
  have h3 : 1 / S / (sigma * Real.sqrt T) = 1 / (S * (sigma * Real.sqrt T)) :=
    div_div _ _ _
  unfold d_1
  rw [← h3]
  exact h2

theorem d_2_hasDerivAt (K T r sigma : ℝ) {S : ℝ} (hS : 0 < S) (hK : 0 < K)
    (hT : 0 < T) (hs : 0 < sigma) :
    HasDerivAt (fun s => d_2 s K T r sigma)
      (1 / (S * (sigma * Real.sqrt T))) S := by
  unfold d_2
  exact (d_1_hasDerivAt K T r sigma hS hK hT hs).sub_const _

theorem call_hasDerivAt (K T r sigma : ℝ) {S : ℝ} (hS : 0 < S) (hK : 0 < K)
    (hT : 0 < T) (hs : 0 < sigma) :
    HasDerivAt (fun s => callPrice s K T r sigma)
      (norm_cdf (d_1 S K T r sigma)) S := by
  simp only [callPrice]
  have hd1 := d_1_hasDerivAt K T r sigma hS hK hT hs
  have hd2 := d_2_hasDerivAt K T r sigma hS hK hT hs
  have hphi1 : HasDerivAt (fun s => norm_cdf (d_1 s K T r sigma))
      (norm_pdf (d_1 S K T r sigma) * (1 / (S * (sigma * Real.sqrt T)))) S :=
    (norm_cdf_hasDerivAt _).comp S hd1
  have hphi2 : HasDerivAt (fun s => norm_cdf (d_2 s K T r sigma))
      (norm_pdf (d_2 S K T r sigma) * (1 / (S * (sigma * Real.sqrt T)))) S :=
    (norm_cdf_hasDerivAt _).comp S hd2
  have h1 := (hasDerivAt_id S).mul hphi1
  have h2 := hphi2.const_mul (K * Real.exp (-r * T))
  have h3 := h1.sub h2
  convert h3 using 1
  have hc := pdf_cancel r hS hK hT hs
  have hsub : K * Real.exp (-r * T)
        * (norm_pdf (d_2 S K T r sigma) * (1 / (S * (sigma * Real.sqrt T))))
      = S * norm_pdf (d_1 S K T r sigma) * (1 / (S * (sigma * Real.sqrt T))) := by
    rw [← mul_assoc, ← hc]
  rw [hsub]
  simp only [id_eq]
  ring

theorem put_hasDerivAt (K T r sigma : ℝ) {S : ℝ} (hS : 0 < S) (hK : 0 < K)
    (hT : 0 < T) (hs : 0 < sigma) :
    HasDerivAt (fun s => putPrice s K T r sigma)
      (-(norm_cdf (-(d_1 S K T r sigma)))) S := by
  simp only [putPrice]
  have hd1 := d_1_hasDerivAt K T r sigma hS hK hT hs
  have hd2 := d_2_hasDerivAt K T r sigma hS hK hT hs
  have hphi1 : HasDerivAt (fun s => norm_cdf (-(d_1 s K T r sigma)))
      (norm_pdf (-(d_1 S K T r sigma)) * (-(1 / (S * (sigma * Real.sqrt T))))) S :=
    (norm_cdf_hasDerivAt _).comp S hd1.neg
  have hphi2 : HasDerivAt (fun s => norm_cdf (-(d_2 s K T r sigma)))
      (norm_pdf (-(d_2 S K T r sigma)) * (-(1 / (S * (sigma * Real.sqrt T))))) S :=
    (norm_cdf_hasDerivAt _).comp S hd2.neg
  have h1 := hphi2.const_mul (K * Real.exp (-r * T))
  have h2 := (hasDerivAt_id S).mul hphi1
  have h3 := h1.sub h2
  convert h3 using 1
  rw [norm_pdf_even, norm_pdf_even]
  have hc := pdf_cancel r hS hK hT hs
  have hsub : K * Real.exp (-r * T)
        * (norm_pdf (d_2 S K T r sigma) * (-(1 / (S * (sigma * Real.sqrt T)))))
      = S * norm_pdf (d_1 S K T r sigma) * (-(1 / (S * (sigma * Real.sqrt T)))) := by
    rw [← mul_assoc, ← hc]
  rw [hsub]
  simp only [id_eq]
  ring

theorem call_monotoneOn (K T r sigma : ℝ) (hK : 0 < K) (hT : 0 < T) (hs : 0 < sigma) :
    MonotoneOn (fun s => callPrice s K T r sigma) (Ioi 0) := by
  apply monotoneOn_of_deriv_nonneg (convex_Ioi 0)
  · intro x hx
    exact (call_hasDerivAt K T r sigma hx hK hT hs).continuousAt.continuousWithinAt
  · intro x hx
    rw [interior_Ioi] at hx
    exact (call_hasDerivAt K T r sigma hx hK hT hs).differentiableAt.differentiableWithinAt
  · intro x hx
    rw [interior_Ioi] at hx
    rw [(call_hasDerivAt K T r sigma hx hK hT hs).deriv]
    exact norm_cdf_nonneg _

theorem put_antitoneOn (K T r sigma : ℝ) (hK : 0 < K) (hT : 0 < T) (hs : 0 < sigma) :
    AntitoneOn (fun s => putPrice s K T r sigma) (Ioi 0) := by
  apply antitoneOn_of_deriv_nonpos (convex_Ioi 0)
  · intro x hx
    exact (put_hasDerivAt K T r sigma hx hK hT hs).continuousAt.continuousWithinAt
  · intro x hx
    rw [interior_Ioi] at hx
    exact (put_hasDerivAt K T r sigma hx hK hT hs).differentiableAt.differentiableWithinAt
  · intro x hx
    rw [interior_Ioi] at hx
    rw [(put_hasDerivAt K T r sigma hx hK hT hs).deriv]
    simp [norm_cdf_nonneg]

theorem finite_diff_eval_call (S K T r sigma eps_S eps_sigma : ℝ) (option_type : String)
    (hT : 0 < T) (hk : pyLower (pyStrip option_type) = "call") :
    finite_diff_greeks S K T r sigma option_type eps_S eps_sigma
      = Except.ok
          { delta := (callPrice (S + S * eps_S) K T r sigma
                - callPrice (S - S * eps_S) K T r sigma) / (2 * (S * eps_S)),
            gamma := (callPrice (S + S * eps_S) K T r sigma
                - 2 * callPrice S K T r sigma
                + callPrice (S - S * eps_S) K T r sigma) / (S * eps_S) ^ 2,
            vega := (callPrice S K T r (sigma + eps_sigma)
                - callPrice S K T r (sigma - eps_sigma)) / (2 * eps_sigma) } := by
  have hg1 : ¬(T ≤ 0 ∧ sigma ≤ 0) := fun h => absurd h.1 (not_le.mpr hT)
  have hg2 : ¬(T ≤ 0 ∧ sigma + eps_sigma ≤ 0) := fun h => absurd h.1 (not_le.mpr hT)
  have hg3 : ¬(T ≤ 0 ∧ sigma - eps_sigma ≤ 0) := fun h => absurd h.1 (not_le.mpr hT)
  simp only [finite_diff_greeks, hk]
  rw [blackscholes_call_eval _ _ _ _ _ hg1, blackscholes_call_eval _ _ _ _ _ hg1,
    blackscholes_call_eval _ _ _ _ _ hg1, blackscholes_call_eval _ _ _ _ _ hg2,
    blackscholes_call_eval _ _ _ _ _ hg3]
  rfl

theorem finite_diff_eval_put (S K T r sigma eps_S eps_sigma : ℝ) (option_type : String)
    (hT : 0 < T) (hk : pyLower (pyStrip option_type) = "put") :
    finite_diff_greeks S K T r sigma option_type eps_S eps_sigma
      = Except.ok
          { delta := (putPrice (S + S * eps_S) K T r sigma
                - putPrice (S - S * eps_S) K T r sigma) / (2 * (S * eps_S)),
            gamma := (putPrice (S + S * eps_S) K T r sigma
                - 2 * putPrice S K T r sigma
                + putPrice (S - S * eps_S) K T r sigma) / (S * eps_S) ^ 2,
            vega := (putPrice S K T r (sigma + eps_sigma)
                - putPrice S K T r (sigma - eps_sigma)) / (2 * eps_sigma) } := by
  have hg1 : ¬(T ≤ 0 ∧ sigma ≤ 0) := fun h => absurd h.1 (not_le.mpr hT)
  have hg2 : ¬(T ≤ 0 ∧ sigma + eps_sigma ≤ 0) := fun h => absurd h.1 (not_le.mpr hT)
  have hg3 : ¬(T ≤ 0 ∧ sigma - eps_sigma ≤ 0) := fun h => absurd h.1 (not_le.mpr hT)
  simp only [finite_diff_greeks, hk]
  rw [blackscholes_put_eval _ _ _ _ _ hg1, blackscholes_put_eval _ _ _ _ _ hg1,
    blackscholes_put_eval _ _ _ _ _ hg1, blackscholes_put_eval _ _ _ _ _ hg2,
    blackscholes_put_eval _ _ _ _ _ hg3]
  rfl

/-! ## Claims -/

/-- Claim C1. The claim says price fails with InvalidInput whenever T ≤ 0 or
sigma ≤ 0. The code instead guards with the conjunction T ≤ 0 AND sigma ≤ 0,
so with T = 0 and sigma = 0.2 > 0 (and likewise sigma = 0 with T = 1 > 0) no
error is raised and blackscholes returns an ok value. This theorem evaluates
the code at those failing inputs. -/
theorem C1_price_guard_uses_conjunction :
    (∃ x, blackscholes 100 100 0 0.05 0.2 "call" = Except.ok x)
    ∧ (∃ x, blackscholes 100 100 1 0.05 0 "put" = Except.ok x) :=
  ⟨⟨_, blackscholes_call_eval 100 100 0 0.05 0.2 (by norm_num)⟩,
   ⟨_, blackscholes_put_eval 100 100 1 0.05 0 (by norm_num)⟩⟩

/-- Claim C2: for S, K, T, sigma > 0 and any rate r, blackscholes returns
exactly the Black-Scholes-Merton closed form, with
d1 = (ln(S/K) + (r + 0.5 sigma^2) T) / (sigma sqrt T), d2 = d1 - sigma sqrt T,
call = S Phi(d1) - K exp(-rT) Phi(d2), put = K exp(-rT) Phi(-d2) - S Phi(-d1). -/
theorem C2_price_closed_form (S K T r sigma : ℝ)
    (hS : 0 < S) (hK : 0 < K) (hT : 0 < T) (hs : 0 < sigma) :
    blackscholes S K T r sigma "call"
      = Except.ok (S * norm_cdf
            ((Real.log (S / K) + (r + 0.5 * sigma ^ 2) * T) / (sigma * Real.sqrt T))
          - K * Real.exp (-r * T) * norm_cdf
            ((Real.log (S / K) + (r + 0.5 * sigma ^ 2) * T) / (sigma * Real.sqrt T)
              - sigma * Real.sqrt T))
    ∧ blackscholes S K T r sigma "put"
      = Except.ok (K * Real.exp (-r * T) * norm_cdf
            (-((Real.log (S / K) + (r + 0.5 * sigma ^ 2) * T) / (sigma * Real.sqrt T)
              - sigma * Real.sqrt T))
          - S * norm_cdf
            (-((Real.log (S / K) + (r + 0.5 * sigma ^ 2) * T) / (sigma * Real.sqrt T)))) := by
  have hg : ¬(T ≤ 0 ∧ sigma ≤ 0) := fun h => absurd h.1 (not_le.mpr hT)
  exact ⟨blackscholes_call_eval S K T r sigma hg, blackscholes_put_eval S K T r sigma hg⟩

/-- Witness for C2 at S = K = T = sigma = 1, r = 0. -/
theorem C2_price_closed_form_witness :
    blackscholes 1 1 1 0 1 "call"
      = Except.ok (1 * norm_cdf
            ((Real.log (1 / 1) + (0 + 0.5 * 1 ^ 2) * 1) / (1 * Real.sqrt 1))
          - 1 * Real.exp (-0 * 1) * norm_cdf
            ((Real.log (1 / 1) + (0 + 0.5 * 1 ^ 2) * 1) / (1 * Real.sqrt 1)
              - 1 * Real.sqrt 1))
    ∧ blackscholes 1 1 1 0 1 "put"
      = Except.ok (1 * Real.exp (-0 * 1) * norm_cdf
            (-((Real.log (1 / 1) + (0 + 0.5 * 1 ^ 2) * 1) / (1 * Real.sqrt 1)
              - 1 * Real.sqrt 1))
          - 1 * norm_cdf
            (-((Real.log (1 / 1) + (0 + 0.5 * 1 ^ 2) * 1) / (1 * Real.sqrt 1)))) :=
  C2_price_closed_form 1 1 1 0 1 (by norm_num) (by norm_num) (by norm_num) (by norm_num)

/-- Claim C3: for every valid input, blackscholes_greek recomputes d1 and d2
with the pricing formula expressions and returns delta = Phi(d1) for a call
and Phi(d1) - 1 for a put, gamma = pdf(d1)/(S sigma sqrt T), and
vega = S pdf(d1) sqrt T, together with d1 and d2. -/
theorem C3_analytic_greeks_closed_form (S K T r sigma : ℝ)
    (hS : 0 < S) (hK : 0 < K) (hT : 0 < T) (hs : 0 < sigma) :
    blackscholes_greek S K T r sigma "call"
      = Except.ok
          { delta := norm_cdf (d_1 S K T r sigma)
            gamma := norm_pdf (d_1 S K T r sigma) / (S * sigma * Real.sqrt T)
            vega := S * norm_pdf (d_1 S K T r sigma) * Real.sqrt T
            d1 := d_1 S K T r sigma
            d2 := d_2 S K T r sigma }
    ∧ blackscholes_greek S K T r sigma "put"
      = Except.ok
          { delta := norm_cdf (d_1 S K T r sigma) - 1
            gamma := norm_pdf (d_1 S K T r sigma) / (S * sigma * Real.sqrt T)
            vega := S * norm_pdf (d_1 S K T r sigma) * Real.sqrt T
            d1 := d_1 S K T r sigma
            d2 := d_2 S K T r sigma } :=
  ⟨blackscholes_greek_eval_call S K T r sigma "call" hT hs (by decide),
   blackscholes_greek_eval_put S K T r sigma "put" hT hs (by decide)⟩

/-- Witness for C3 at S = K = T = sigma = 1, r = 0. -/
theorem C3_analytic_greeks_closed_form_witness :
    blackscholes_greek 1 1 1 0 1 "call"
      = Except.ok
          { delta := norm_cdf (d_1 1 1 1 0 1)
            gamma := norm_pdf (d_1 1 1 1 0 1) / (1 * 1 * Real.sqrt 1)
            vega := 1 * norm_pdf (d_1 1 1 1 0 1) * Real.sqrt 1
            d1 := d_1 1 1 1 0 1
            d2 := d_2 1 1 1 0 1 }
    ∧ blackscholes_greek 1 1 1 0 1 "put"
      = Except.ok
          { delta := norm_cdf (d_1 1 1 1 0 1) - 1
            gamma := norm_pdf (d_1 1 1 1 0 1) / (1 * 1 * Real.sqrt 1)
            vega := 1 * norm_pdf (d_1 1 1 1 0 1) * Real.sqrt 1
            d1 := d_1 1 1 1 0 1
            d2 := d_2 1 1 1 0 1 } :=
  C3_analytic_greeks_closed_form 1 1 1 0 1
    (by norm_num) (by norm_num) (by norm_num) (by norm_num)

/-- Claim C4: blackscholes_greek fails with the InvalidInput error (a returned
ValueError in the source) whenever T ≤ 0 or sigma ≤ 0, and likewise when the
kind, after the strip and lower normalization the function applies, is
neither call nor put; in those cases no Greeks result is produced. -/
theorem C4_greeks_preconditions (S K T r sigma : ℝ) (option_type : String) :
    (T ≤ 0 ∨ sigma ≤ 0 →
      ∃ e, blackscholes_greek S K T r sigma option_type = Except.error e)
    ∧ (pyLower (pyStrip option_type) ≠ "call" → pyLower (pyStrip option_type) ≠ "put" →
      ∃ e, blackscholes_greek S K T r sigma option_type = Except.error e) := by
  constructor
  · intro h
    have hh : blackscholes_greek S K T r sigma option_type
        = Except.error "Time to Maturity and Volatility must be positive." := by
      simp only [blackscholes_greek]
      rw [if_pos h]
    exact ⟨_, hh⟩
  · intro h1 h2
    by_cases hg : T ≤ 0 ∨ sigma ≤ 0
    · have hh : blackscholes_greek S K T r sigma option_type
          = Except.error "Time to Maturity and Volatility must be positive." := by
        simp only [blackscholes_greek]
        rw [if_pos hg]
      exact ⟨_, hh⟩
    · have hh : blackscholes_greek S K T r sigma option_type
          = Except.error "Option type must be call or put." := by
        simp only [blackscholes_greek]
        rw [if_neg hg, if_neg h1, if_neg h2]
      exact ⟨_, hh⟩

/-- Witness for C4: zero maturity fails, and an unknown kind fails. -/
theorem C4_greeks_preconditions_witness :
    (∃ e, blackscholes_greek 100 100 0 0.05 0.2 "call" = Except.error e)
    ∧ (∃ e, blackscholes_greek 100 100 1 0.05 0.2 "straddle" = Except.error e) :=
  ⟨(C4_greeks_preconditions 100 100 0 0.05 0.2 "call").1 (Or.inl (by norm_num)),
   (C4_greeks_preconditions 100 100 1 0.05 0.2 "straddle").2 (by decide) (by decide)⟩

/-- Claim C5: on the same valid numeric inputs, the gamma returned for a call
equals the gamma returned for a put exactly, and likewise the vegas: the two
branches build them from the identical formula. -/
theorem C5_gamma_vega_kind_invariant (S K T r sigma : ℝ)
    (hS : 0 < S) (hK : 0 < K) (hT : 0 < T) (hs : 0 < sigma) :
    ∃ gc gp : GreeksResult,
      blackscholes_greek S K T r sigma "call" = Except.ok gc
      ∧ blackscholes_greek S K T r sigma "put" = Except.ok gp
      ∧ gc.gamma = gp.gamma ∧ gc.vega = gp.vega :=
  ⟨_, _, blackscholes_greek_eval_call S K T r sigma "call" hT hs (by decide),
    blackscholes_greek_eval_put S K T r sigma "put" hT hs (by decide), rfl, rfl⟩

/-- Witness for C5 at S = K = T = 1, r = 0.05, sigma = 0.2. -/
theorem C5_gamma_vega_kind_invariant_witness :
    ∃ gc gp : GreeksResult,
      blackscholes_greek 1 1 1 0.05 0.2 "call" = Except.ok gc
      ∧ blackscholes_greek 1 1 1 0.05 0.2 "put" = Except.ok gp
      ∧ gc.gamma = gp.gamma ∧ gc.vega = gp.vega :=
  C5_gamma_vega_kind_invariant 1 1 1 0.05 0.2
    (by norm_num) (by norm_num) (by norm_num) (by norm_num)

/-- Claim C6: for every valid input the analytic Greeks satisfy
0 ≤ delta(call) ≤ 1, -1 ≤ delta(put) ≤ 0, gamma > 0 and vega > 0. -/
theorem C6_greeks_bounds (S K T r sigma : ℝ)
    (hS : 0 < S) (hK : 0 < K) (hT : 0 < T) (hs : 0 < sigma) :
    ∃ gc gp : GreeksResult,
      blackscholes_greek S K T r sigma "call" = Except.ok gc
      ∧ blackscholes_greek S K T r sigma "put" = Except.ok gp
      ∧ 0 ≤ gc.delta ∧ gc.delta ≤ 1
      ∧ -1 ≤ gp.delta ∧ gp.delta ≤ 0
      ∧ 0 < gc.gamma ∧ 0 < gc.vega ∧ 0 < gp.gamma ∧ 0 < gp.vega := by
  have hsqrt : 0 < Real.sqrt T := Real.sqrt_pos.mpr hT
  have hgam : 0 < norm_pdf (d_1 S K T r sigma) / (S * sigma * Real.sqrt T) :=
    div_pos (norm_pdf_pos _) (mul_pos (mul_pos hS hs) hsqrt)
  have hveg : 0 < S * norm_pdf (d_1 S K T r sigma) * Real.sqrt T :=
    mul_pos (mul_pos hS (norm_pdf_pos _)) hsqrt
  have hd0 := norm_cdf_nonneg (d_1 S K T r sigma)
  have hd1 := norm_cdf_le_one (d_1 S K T r sigma)
  refine ⟨_, _, blackscholes_greek_eval_call S K T r sigma "call" hT hs (by decide),
    blackscholes_greek_eval_put S K T r sigma "put" hT hs (by decide),
    hd0, hd1, by linarith, by linarith, hgam, hveg, hgam, hveg⟩

/-- Witness for C6 at S = K = T = 1, r = 0.05, sigma = 0.2. -/
theorem C6_greeks_bounds_witness :
    ∃ gc gp : GreeksResult,
      blackscholes_greek 1 1 1 0.05 0.2 "call" = Except.ok gc
      ∧ blackscholes_greek 1 1 1 0.05 0.2 "put" = Except.ok gp
      ∧ 0 ≤ gc.delta ∧ gc.delta ≤ 1
      ∧ -1 ≤ gp.delta ∧ gp.delta ≤ 0
      ∧ 0 < gc.gamma ∧ 0 < gc.vega ∧ 0 < gp.gamma ∧ 0 < gp.vega :=
  C6_greeks_bounds 1 1 1 0.05 0.2
    (by norm_num) (by norm_num) (by norm_num) (by norm_num)

/-- Claim C7: put-call parity. For every valid input the call and put prices
returned by blackscholes satisfy call - put = S - K exp(-rT), exactly over
the reals. -/
theorem C7_put_call_parity (S K T r sigma : ℝ)
    (hS : 0 < S) (hK : 0 < K) (hT : 0 < T) (hs : 0 < sigma) :
    ∃ c p : ℝ,
      blackscholes S K T r sigma "call" = Except.ok c
      ∧ blackscholes S K T r sigma "put" = Except.ok p
      ∧ c - p = S - K * Real.exp (-r * T) := by
  have hg : ¬(T ≤ 0 ∧ sigma ≤ 0) := fun h => absurd h.1 (not_le.mpr hT)
  refine ⟨_, _, blackscholes_call_eval S K T r sigma hg,
    blackscholes_put_eval S K T r sigma hg, ?_⟩
  unfold callPrice putPrice
  rw [norm_cdf_neg, norm_cdf_neg]
  ring

/-- Witness for C7 at S = 100, K = 100, T = 1, r = 0.05, sigma = 0.2. -/
theorem C7_put_call_parity_witness :
    ∃ c p : ℝ,
      blackscholes 100 100 1 0.05 0.2 "call" = Except.ok c
      ∧ blackscholes 100 100 1 0.05 0.2 "put" = Except.ok p
      ∧ c - p = 100 - 100 * Real.exp (-0.05 * 1) :=
  C7_put_call_parity 100 100 1 0.05 0.2
    (by norm_num) (by norm_num) (by norm_num) (by norm_num)

/-- Claim C8: finite_diff_greeks computes its three estimates solely from
calls to blackscholes (never from the analytic Greeks formulas), by central
differences: with dS = S * eps_S it returns
delta = (V_up - V_down) / (2 dS), gamma = (V_up - 2 V_0 + V_down) / dS^2,
and vega = (Vol_up - Vol_down) / (2 eps_sigma), where every V is a
blackscholes price; eps_S and eps_sigma default to 1e-4. -/
theorem C8_numeric_greeks_from_price (S K T r sigma eps_S eps_sigma : ℝ)
    (option_type : String) (hT : 0 < T) (hs : 0 < sigma)
    (hk : pyLower (pyStrip option_type) = "call"
      ∨ pyLower (pyStrip option_type) = "put") :
    (∃ V_up V_down V_0 Vol_up Vol_down : ℝ,
      blackscholes (S + S * eps_S) K T r sigma (pyLower (pyStrip option_type))
        = Except.ok V_up
      ∧ blackscholes (S - S * eps_S) K T r sigma (pyLower (pyStrip option_type))
        = Except.ok V_down
      ∧ blackscholes S K T r sigma (pyLower (pyStrip option_type))
        = Except.ok V_0
      ∧ blackscholes S K T r (sigma + eps_sigma) (pyLower (pyStrip option_type))
        = Except.ok Vol_up
      ∧ blackscholes S K T r (sigma - eps_sigma) (pyLower (pyStrip option_type))
        = Except.ok Vol_down
      ∧ finite_diff_greeks S K T r sigma option_type eps_S eps_sigma
        = Except.ok
            { delta := (V_up - V_down) / (2 * (S * eps_S))
              gamma := (V_up - 2 * V_0 + V_down) / (S * eps_S) ^ 2
              vega := (Vol_up - Vol_down) / (2 * eps_sigma) })
    ∧ finite_diff_greeks S K T r sigma option_type
        = finite_diff_greeks S K T r sigma option_type 1e-4 1e-4 := by
  have hg1 : ¬(T ≤ 0 ∧ sigma ≤ 0) := fun h => absurd h.1 (not_le.mpr hT)
  have hg2 : ¬(T ≤ 0 ∧ sigma + eps_sigma ≤ 0) := fun h => absurd h.1 (not_le.mpr hT)
  have hg3 : ¬(T ≤ 0 ∧ sigma - eps_sigma ≤ 0) := fun h => absurd h.1 (not_le.mpr hT)
  refine ⟨?_, rfl⟩
  rcases hk with hk | hk
  · rw [hk]
    exact ⟨_, _, _, _, _,
      blackscholes_call_eval _ _ _ _ _ hg1, blackscholes_call_eval _ _ _ _ _ hg1,
      blackscholes_call_eval _ _ _ _ _ hg1, blackscholes_call_eval _ _ _ _ _ hg2,
      blackscholes_call_eval _ _ _ _ _ hg3,
      finite_diff_eval_call S K T r sigma eps_S eps_sigma option_type hT hk⟩
  · rw [hk]
    exact ⟨_, _, _, _, _,
      blackscholes_put_eval _ _ _ _ _ hg1, blackscholes_put_eval _ _ _ _ _ hg1,
      blackscholes_put_eval _ _ _ _ _ hg1, blackscholes_put_eval _ _ _ _ _ hg2,
      blackscholes_put_eval _ _ _ _ _ hg3,
      finite_diff_eval_put S K T r sigma eps_S eps_sigma option_type hT hk⟩

/-- Witness for C8 at S = K = 100, T = 1, r = 0.05, sigma = 0.2, kind call,
with the default bump sizes. -/
theorem C8_numeric_greeks_from_price_witness :
    (∃ V_up V_down V_0 Vol_up Vol_down : ℝ,
      blackscholes (100 + 100 * 1e-4) 100 1 0.05 0.2 (pyLower (pyStrip "call"))
        = Except.ok V_up
      ∧ blackscholes (100 - 100 * 1e-4) 100 1 0.05 0.2 (pyLower (pyStrip "call"))
        = Except.ok V_down
      ∧ blackscholes 100 100 1 0.05 0.2 (pyLower (pyStrip "call"))
        = Except.ok V_0
      ∧ blackscholes 100 100 1 0.05 (0.2 + 1e-4) (pyLower (pyStrip "call"))
        = Except.ok Vol_up
      ∧ blackscholes 100 100 1 0.05 (0.2 - 1e-4) (pyLower (pyStrip "call"))
        = Except.ok Vol_down
      ∧ finite_diff_greeks 100 100 1 0.05 0.2 "call" 1e-4 1e-4
        = Except.ok
            { delta := (V_up - V_down) / (2 * (100 * 1e-4))
              gamma := (V_up - 2 * V_0 + V_down) / (100 * 1e-4) ^ 2
              vega := (Vol_up - Vol_down) / (2 * 1e-4) })
    ∧ finite_diff_greeks 100 100 1 0.05 0.2 "call"
        = finite_diff_greeks 100 100 1 0.05 0.2 "call" 1e-4 1e-4 :=
  C8_numeric_greeks_from_price 100 100 1 0.05 0.2 1e-4 1e-4 "call"
    (by norm_num) (by norm_num) (Or.inl (by decide))

/-- Claim C9: with K, T, r, sigma fixed at valid values, the call price
returned by blackscholes is non-decreasing in the spot S on S > 0, and the
put price is non-increasing in S. -/
theorem C9_price_monotone_in_spot (K T r sigma S1 S2 : ℝ)
    (hK : 0 < K) (hT : 0 < T) (hs : 0 < sigma)
    (hS1 : 0 < S1) (h12 : S1 ≤ S2) :
    ∃ c1 c2 p1 p2 : ℝ,
      blackscholes S1 K T r sigma "call" = Except.ok c1
      ∧ blackscholes S2 K T r sigma "call" = Except.ok c2
      ∧ blackscholes S1 K T r sigma "put" = Except.ok p1
      ∧ blackscholes S2 K T r sigma "put" = Except.ok p2
      ∧ c1 ≤ c2 ∧ p2 ≤ p1 := by
  have hS2 : 0 < S2 := lt_of_lt_of_le hS1 h12
  have hg : ¬(T ≤ 0 ∧ sigma ≤ 0) := fun h => absurd h.1 (not_le.mpr hT)
  refine ⟨_, _, _, _,
    blackscholes_call_eval S1 K T r sigma hg, blackscholes_call_eval S2 K T r sigma hg,
    blackscholes_put_eval S1 K T r sigma hg, blackscholes_put_eval S2 K T r sigma hg,
    ?_, ?_⟩
  · exact call_monotoneOn K T r sigma hK hT hs (mem_Ioi.mpr hS1) (mem_Ioi.mpr hS2) h12
  · exact put_antitoneOn K T r sigma hK hT hs (mem_Ioi.mpr hS1) (mem_Ioi.mpr hS2) h12

/-- Witness for C9 at K = T = sigma = 1, r = 0, S1 = 1, S2 = 2. -/
theorem C9_price_monotone_in_spot_witness :
    ∃ c1 c2 p1 p2 : ℝ,
      blackscholes 1 1 1 0 1 "call" = Except.ok c1
      ∧ blackscholes 2 1 1 0 1 "call" = Except.ok c2
      ∧ blackscholes 1 1 1 0 1 "put" = Except.ok p1
      ∧ blackscholes 2 1 1 0 1 "put" = Except.ok p2
      ∧ c1 ≤ c2 ∧ p2 ≤ p1 :=
  C9_price_monotone_in_spot 1 1 0 1 1 2
    (by norm_num) (by norm_num) (by norm_num) (by norm_num) (by norm_num)

/-- Claim C10: the three operations disagree on kind matching.
blackscholes_greek and finite_diff_greeks normalize the kind with strip and
lower, so "Call" and " PUT " succeed there on otherwise valid inputs, while
blackscholes compares the kind verbatim and rejects "Call" with the
InvalidInput error (while accepting "call"). -/
theorem C10_kind_matching_disagrees :
    (∃ e, blackscholes 100 100 1 0.05 0.2 "Call" = Except.error e)
    ∧ (∃ g, blackscholes_greek 100 100 1 0.05 0.2 "Call" = Except.ok g)
    ∧ (∃ g, blackscholes_greek 100 100 1 0.05 0.2 " PUT " = Except.ok g)
    ∧ (∃ g, finite_diff_greeks 100 100 1 0.05 0.2 "Call" = Except.ok g)
    ∧ (∃ g, finite_diff_greeks 100 100 1 0.05 0.2 " PUT " = Except.ok g)
    ∧ (∃ x, blackscholes 100 100 1 0.05 0.2 "call" = Except.ok x) := by
  have herr : blackscholes 100 100 1 0.05 0.2 "Call"
      = Except.error "Invalid option type. Must be call or put." := by
    simp only [blackscholes]
    rw [if_neg (by norm_num)]
    simp
  exact ⟨⟨_, herr⟩,
    ⟨_, blackscholes_greek_eval_call 100 100 1 0.05 0.2 "Call"
      (by norm_num) (by norm_num) (by decide)⟩,
    ⟨_, blackscholes_greek_eval_put 100 100 1 0.05 0.2 " PUT "
      (by norm_num) (by norm_num) (by decide)⟩,
    ⟨_, finite_diff_eval_call 100 100 1 0.05 0.2 1e-4 1e-4 "Call"
      (by norm_num) (by decide)⟩,
    ⟨_, finite_diff_eval_put 100 100 1 0.05 0.2 1e-4 1e-4 " PUT "
      (by norm_num) (by decide)⟩,
    ⟨_, blackscholes_call_eval 100 100 1 0.05 0.2 (by norm_num)⟩⟩

end BlackScholes
